import Mathlib

/-!
Verification of the multisig wallet core (Rust sources: `wallet.rs`,
`transaction.rs`, `crypto.rs`, `error.rs`) against its natural-language
specification, via a shallow embedding in Lean 4.

Modelling conventions:
* Rust `u64`/`usize` values are `Nat` (no arithmetic is performed on them,
  so wrap-around never matters).
* `HashMap<String, V>` is an association list `List (String × V)` with
  `mapGet` / `mapInsert` / `mapContains`; `HashMap::insert` replaces an
  existing binding in place, which `mapInsert` mirrors.
* The secp256k1 ECDSA primitives are external collaborators (the spec
  treats them as a black box assumed correct).  They are modelled
  symbolically: a signature records the exact message bytes signed and the
  key material of the signing key, and verification checks both, which is
  the standard EUF-CMA idealization.  SHA-256 is modelled as an injective
  digest (collision-freeness idealized as injectivity).
* Methods taking `&mut self` are embedded in state-threading style
  `Wallet → (Wallet × Except Error α)`, with every early `return Err`
  returning the wallet state as it stands at that program point, so that
  "errors leave the state unchanged" is a real property of the embedding,
  not an artifact of it.
-/

/-- Model of `secp256k1::SecretKey`: opaque key material. -/
structure SecretKey where
  raw : Nat
deriving DecidableEq, Repr

/-- Model of `secp256k1::PublicKey`: opaque key material.  In secp256k1,
equality of `PublicKey` values is equality of the underlying key. -/
structure PublicKey where
  raw : Nat
deriving DecidableEq, Repr

/-- Model of `secp256k1::ecdsa::Signature`, symbolically: the message the
signature was produced over and the key material of the signing key. -/
structure Signature where
  message : String
  signer : Nat
deriving DecidableEq, Repr

/-- Byte decomposition of a `Nat`, little-endian base 256, with structural
fuel so the kernel can evaluate it.  Models the byte string of external
serializations (`PublicKey::serialize`, `Signature::serialize_compact`). -/
def natBytesAux : Nat → Nat → List Nat
  | 0, _ => []
  | _ + 1, 0 => []
  | fuel + 1, n => n % 256 :: natBytesAux fuel (n / 256)

def natBytes (n : Nat) : List Nat := natBytesAux n n

/-- The character list of `hex::encode`: two lowercase hex digits per byte,
high nibble first. -/
def hexChars : List Nat → List Char
  | [] => []
  | b :: bs => Nat.digitChar (b / 16 % 16) :: Nat.digitChar (b % 16) :: hexChars bs

/-- Model of `hex::encode` on a byte sequence. -/
def hexEncode (bytes : List Nat) : String := ⟨hexChars bytes⟩

/-- Model of `pk.serialize()` (33-byte SEC1 compressed encoding, an
injective encoding of the key material). -/
def serializeKey (pk : PublicKey) : List Nat := natBytes pk.raw

/-- Model of `hex::encode(pk.serialize())`, the derived textual identifier used as
the signature-map key in `wallet.rs`. -/
def pubkeyHex (pk : PublicKey) : String := hexEncode (serializeKey pk)

/-- Model of `signature.serialize_compact()`. -/
def serializeCompact (s : Signature) : List Nat := natBytes s.signer

/-- Model of `hex::encode(signature.serialize_compact())`, the stored signature
text in `wallet.rs`. -/
def sigHex (s : Signature) : String := hexEncode (serializeCompact s)

/-- Source `crypto.rs` `hash_message`: SHA-256 of the input bytes.  The hash is an
external collaborator assumed collision-resistant; it is modelled as an
injective digest (the byte codes of the input). -/
def hash_message (message : String) : List Nat := message.data.map Char.toNat

/-- Model of `error.rs` `MultisigError`. -/
inductive MultisigError where
  | InvalidSignature
  | InsufficientSignatures (required : Nat) (actual : Nat)
  | UnauthorizedSigner
  | TransactionAlreadyExecuted
  | InvalidThreshold (m : Nat) (n : Nat)
  | DuplicateSignature
  | SerializationError
  | CryptoError (msg : String)
  | InvalidPublicKey
  | InvalidPrivateKey
  | TransactionNotFound
deriving DecidableEq, Repr

/-- Source `crypto.rs` `sign_message`: hash then ECDSA-sign.  Symbolic model: the
signature records the message and the signing key.  The only fallible step
in the source, `Message::from_digest_slice`, cannot fail on the 32-byte
output of `hash_message`, so the model always succeeds. -/
def sign_message (message : String) (secret_key : SecretKey) :
    Except MultisigError Signature :=
  .ok { message := message, signer := secret_key.raw }

/-- Source `crypto.rs` `verify_signature`: hash then ECDSA-verify; the source maps
a failed `verify_ecdsa` to `Ok(false)`, never to `Err`.  Symbolic model: the
signature verifies iff it was produced over exactly these bytes by the
secret key matching `public_key`. -/
def verify_signature (message : String) (signature : Signature)
    (public_key : PublicKey) : Except MultisigError Bool :=
  .ok (decide (signature.message = message ∧ signature.signer = public_key.raw))

/-- Model of `transaction.rs` `Transaction`. -/
structure Transaction where
  id : String
  recipient : String
  amount : Nat
  metadata : Option String
  timestamp : Nat
  nonce : Nat
deriving DecidableEq, Repr

/-- The pre-hash canonical encoding built by `Transaction::calculate_id`:
`format!("{}:{}:{}:{}:{}", recipient, amount,
         metadata.as_deref().unwrap_or(""), timestamp, nonce)`. -/
def Transaction.idPayload (tx : Transaction) : String :=
  tx.recipient ++ ":" ++ Nat.repr tx.amount ++ ":" ++
    tx.metadata.getD "" ++ ":" ++ Nat.repr tx.timestamp ++ ":" ++
    Nat.repr tx.nonce

/-- Source `transaction.rs` `calculate_id`: hex of the hash of the canonical
encoding.  (The `id` field itself is not part of the encoding.) -/
def Transaction.calculate_id (tx : Transaction) : String :=
  hexEncode (hash_message tx.idPayload)

/-- Source `transaction.rs` `Transaction::new`.  The ambient inputs (current time
and the random nonce) are explicit parameters of the model. -/
def Transaction.new (recipient : String) (amount : Nat)
    (metadata : Option String) (timestamp : Nat) (nonce : Nat) : Transaction :=
  let tx : Transaction :=
    { id := "", recipient := recipient, amount := amount,
      metadata := metadata, timestamp := timestamp, nonce := nonce }
  { tx with id := tx.calculate_id }

/-- JSON rendering of an `Option<String>` field (string escaping elided;
no claim depends on it). -/
def jsonOptStr : Option String → String
  | none => "null"
  | some s => "\"" ++ s ++ "\""

/-- Source `transaction.rs` `to_bytes`: `serde_json::to_vec(self)`, i.e. the JSON
object of all six fields in declaration order. -/
def Transaction.to_bytes (tx : Transaction) : String :=
  "\x7b\"id\":\"" ++ tx.id ++ "\",\"recipient\":\"" ++ tx.recipient ++
    "\",\"amount\":" ++ Nat.repr tx.amount ++ ",\"metadata\":" ++
    jsonOptStr tx.metadata ++ ",\"timestamp\":" ++ Nat.repr tx.timestamp ++
    ",\"nonce\":" ++ Nat.repr tx.nonce ++ "\x7d"

/-- Source `transaction.rs` `Transaction::sign`. -/
def Transaction.sign (tx : Transaction) (secret_key : SecretKey) :
    Except MultisigError Signature :=
  sign_message tx.to_bytes secret_key

/-- Association-list lookup, modelling `HashMap::get`. -/
def mapGet {V : Type} : List (String × V) → String → Option V
  | [], _ => none
  | (k', v) :: rest, k => if k' = k then some v else mapGet rest k

/-- Model of `HashMap::contains_key`. -/
def mapContains {V : Type} (m : List (String × V)) (k : String) : Bool :=
  (mapGet m k).isSome

/-- Model of `HashMap::insert`: replaces an existing binding in place, otherwise
adds the binding. -/
def mapInsert {V : Type} : List (String × V) → String → V → List (String × V)
  | [], k, v => [(k, v)]
  | (k', v') :: rest, k, v =>
    if k' = k then (k, v) :: rest else (k', v') :: mapInsert rest k v

/-- Model of `wallet.rs` `PendingTransaction`. -/
structure PendingTransaction where
  transaction : Transaction
  signatures : List (String × String)
  executed : Bool
deriving DecidableEq, Repr

/-- Model of `wallet.rs` `MultisigWallet`. -/
structure MultisigWallet where
  threshold : Nat
  total_signers : Nat
  authorized_keys : List PublicKey
  authorized_keys_hex : List String
  pending_transactions : List (String × PendingTransaction)
deriving DecidableEq, Repr

/-- Source `wallet.rs` `MultisigWallet::new`. -/
def MultisigWallet.new (threshold : Nat) (authorized_keys : List PublicKey) :
    Except MultisigError MultisigWallet :=
  let total_signers := authorized_keys.length
  if threshold = 0 ∨ threshold > total_signers then
    .error (.InvalidThreshold threshold total_signers)
  else
    .ok { threshold := threshold, total_signers := total_signers,
          authorized_keys := authorized_keys,
          authorized_keys_hex := authorized_keys.map pubkeyHex,
          pending_transactions := [] }

/-- Source `wallet.rs` `propose_transaction`. -/
def MultisigWallet.propose_transaction (w : MultisigWallet)
    (transaction : Transaction) : MultisigWallet × Except MultisigError Unit :=
  let tx_id := transaction.id
  let pending : PendingTransaction :=
    { transaction := transaction, signatures := [], executed := false }
  ({ w with pending_transactions := mapInsert w.pending_transactions tx_id pending },
   .ok ())

/-- Source `wallet.rs` `is_authorized`: exact equality of key material against the
`authorized_keys` vector. -/
def MultisigWallet.is_authorized (w : MultisigWallet) (pubkey : PublicKey) : Bool :=
  w.authorized_keys.any fun pk => decide (pk = pubkey)

/-- Source `wallet.rs` `add_signature`, with every early `return Err` yielding the
wallet state at that program point (no mutation precedes any of them in the
source; the single mutation is the final `insert`). -/
def MultisigWallet.add_signature (w : MultisigWallet) (tx_id : String)
    (signature : Signature) (signer_pubkey : PublicKey) :
    MultisigWallet × Except MultisigError Unit :=
  if ¬ w.is_authorized signer_pubkey then
    (w, .error .UnauthorizedSigner)
  else
    match mapGet w.pending_transactions tx_id with
    | none => (w, .error .TransactionNotFound)
    | some pending =>
      if pending.executed then
        (w, .error .TransactionAlreadyExecuted)
      else
        match verify_signature pending.transaction.to_bytes signature signer_pubkey with
        | .error e => (w, .error e)
        | .ok is_valid =>
          if ¬ is_valid then
            (w, .error .InvalidSignature)
          else
            let pubkey_hex := pubkeyHex signer_pubkey
            let sig_hex := sigHex signature
            if mapContains pending.signatures pubkey_hex then
              (w, .error .DuplicateSignature)
            else
              let pending' : PendingTransaction :=
                { pending with signatures := mapInsert pending.signatures pubkey_hex sig_hex }
              let w' : MultisigWallet :=
                { w with pending_transactions := mapInsert w.pending_transactions tx_id pending' }
              (w', .ok ())

/-- Source `wallet.rs` `has_enough_signatures` (read-only). -/
def MultisigWallet.has_enough_signatures (w : MultisigWallet) (tx_id : String) :
    Except MultisigError Bool :=
  match mapGet w.pending_transactions tx_id with
  | none => .error .TransactionNotFound
  | some pending => .ok (decide (pending.signatures.length ≥ w.threshold))

/-- Source `wallet.rs` `execute_transaction`.  The source's `.unwrap()` on the
re-lookup under `!has_enough_signatures` cannot fail (the preceding
`has_enough_signatures` call succeeded); its panic path is modelled as the
unreachable `TransactionNotFound` branch. -/
def MultisigWallet.execute_transaction (w : MultisigWallet) (tx_id : String) :
    MultisigWallet × Except MultisigError Transaction :=
  match w.has_enough_signatures tx_id with
  | .error e => (w, .error e)
  | .ok enough =>
    if ¬ enough then
      match mapGet w.pending_transactions tx_id with
      | none => (w, .error .TransactionNotFound)
      | some pending =>
        (w, .error (.InsufficientSignatures w.threshold pending.signatures.length))
    else
      match mapGet w.pending_transactions tx_id with
      | none => (w, .error .TransactionNotFound)
      | some pending =>
        if pending.executed then
          (w, .error .TransactionAlreadyExecuted)
        else
          let pending' : PendingTransaction := { pending with executed := true }
          let w' : MultisigWallet :=
            { w with pending_transactions := mapInsert w.pending_transactions tx_id pending' }
          (w', .ok pending.transaction)

/-- Source `wallet.rs` `get_signature_count` (read-only). -/
def MultisigWallet.get_signature_count (w : MultisigWallet) (tx_id : String) :
    Except MultisigError Nat :=
  match mapGet w.pending_transactions tx_id with
  | none => .error .TransactionNotFound
  | some pending => .ok pending.signatures.length

/-- Model of `wallet.rs` `WalletInfo`. -/
structure WalletInfo where
  threshold : Nat
  total_signers : Nat
  pending_count : Nat
deriving DecidableEq, Repr

/-- Source `wallet.rs` `info`. -/
def MultisigWallet.info (w : MultisigWallet) : WalletInfo :=
  { threshold := w.threshold, total_signers := w.total_signers,
    pending_count := w.pending_transactions.length }

/-! ## Operation alphabet and reachable wallet states -/

/-- The wallet's mutating operations. -/
inductive Op where
  | propose (tx : Transaction)
  | addSig (tx_id : String) (s : Signature) (pk : PublicKey)
  | execute (tx_id : String)
deriving DecidableEq, Repr

/-- One mutating operation, keeping the resulting state. -/
def step (w : MultisigWallet) : Op → MultisigWallet
  | .propose tx => (w.propose_transaction tx).1
  | .addSig i s pk => (w.add_signature i s pk).1
  | .execute i => (w.execute_transaction i).1

/-- A sequence of mutating operations. -/
def run (w : MultisigWallet) (ops : List Op) : MultisigWallet := ops.foldl step w

/-- A wallet state is reachable when it arises from a successful
`MultisigWallet::new` followed by any sequence of operations. -/
def Reachable (w : MultisigWallet) : Prop :=
  ∃ m keys w0 ops, MultisigWallet.new m keys = .ok w0 ∧ w = run w0 ops

/-- Submit a list of signatures in order; the flag records whether every
single call returned `Ok`. -/
def runAdds (w : MultisigWallet) (tx_id : String) :
    List (Signature × PublicKey) → MultisigWallet × Bool
  | [] => (w, true)
  | p :: rest =>
    let r := w.add_signature tx_id p.1 p.2
    let rr := runAdds r.1 tx_id rest
    (rr.1, (match r.2 with | .ok _ => true | .error _ => false) && rr.2)

/-- The `add_signature` contract exactly as the specification words it:
five checks in this order, the first failing check's error returned,
otherwise admission succeeds. -/
def addSignatureSpec (w : MultisigWallet) (tx_id : String) (signature : Signature)
    (signer_pubkey : PublicKey) : Except MultisigError Unit :=
  if ¬ w.is_authorized signer_pubkey then
    .error .UnauthorizedSigner
  else
    match mapGet w.pending_transactions tx_id with
    | none => .error .TransactionNotFound
    | some pending =>
      if pending.executed then
        .error .TransactionAlreadyExecuted
      else if ¬ (decide (signature.message = pending.transaction.to_bytes ∧
                         signature.signer = signer_pubkey.raw) : Bool) then
        .error .InvalidSignature
      else if mapContains pending.signatures (pubkeyHex signer_pubkey) then
        .error .DuplicateSignature
      else
        .ok ()

/-! ## Derived state shapes and the wallet invariant -/

/-- The record freshly inserted by `propose_transaction`. -/
def proposeRecord (tx : Transaction) : PendingTransaction :=
  { transaction := tx, signatures := [], executed := false }

/-- The wallet state after `add_signature` successfully records a signature
by `p` in record `pending` under id `i`. -/
def recordSignature (w : MultisigWallet) (i : String) (pending : PendingTransaction)
    (s : Signature) (p : PublicKey) : MultisigWallet :=
  let pending' : PendingTransaction :=
    { pending with signatures := mapInsert pending.signatures (pubkeyHex p) (sigHex s) }
  { w with pending_transactions := mapInsert w.pending_transactions i pending' }

/-- The wallet state after `execute_transaction` successfully flips the
`executed` flag of record `pending` under id `i`. -/
def markExecuted (w : MultisigWallet) (i : String) (pending : PendingTransaction) :
    MultisigWallet :=
  let pending' : PendingTransaction := { pending with executed := true }
  { w with pending_transactions := mapInsert w.pending_transactions i pending' }

/-- Record `pending` with its `executed` flag set (the record after execution). -/
def setExecuted (pending : PendingTransaction) : PendingTransaction :=
  { pending with executed := true }

/-- Invariant of every reachable wallet state: `total_signers` is the size
of the authorized-key list, and every pending record is keyed by its own
transaction id, has duplicate-free signature keys, and every signature key
is the derived hex identifier of some authorized key. -/
def WalletInv (w : MultisigWallet) : Prop :=
  w.total_signers = w.authorized_keys.length ∧
  ∀ k rec, mapGet w.pending_transactions k = some rec →
    rec.transaction.id = k ∧
    (rec.signatures.map Prod.fst).Nodup ∧
    ∀ sk ∈ rec.signatures.map Prod.fst, ∃ pk, pk ∈ w.authorized_keys ∧ sk = pubkeyHex pk

/-- Big-endian decimal digit characters of a `Nat`: the character list that
`Nat.repr` produces (proved below), in a directly recursive form. -/
def decChars (n : Nat) : List Char :=
  (if h : n < 10 then [] else decChars (n / 10)) ++ [Nat.digitChar (n % 10)]
decreasing_by exact Nat.div_lt_self (by omega) (by omega)

/-! ## Concrete scenario used by witnesses and counterexamples -/

/-- A concrete key pair. -/
def pkA : PublicKey := ⟨1⟩

/-- A second concrete key, not authorized in the scenario wallet. -/
def pkB : PublicKey := ⟨2⟩

/-- A concrete transaction (timestamp 0, nonce 0). -/
def txA : Transaction := Transaction.new "bob" 10 .none 0 0

/-- A valid signature over `txA`'s canonical bytes by `pkA`'s key. -/
def sigA : Signature := ⟨txA.to_bytes, 1⟩

/-- A 1-of-1 wallet authorized for `pkA` (the value `MultisigWallet.new 1 [pkA]` returns). -/
def walletA : MultisigWallet :=
  { threshold := 1, total_signers := 1, authorized_keys := [pkA],
    authorized_keys_hex := [pubkeyHex pkA], pending_transactions := [] }

/-- State of `walletA` after proposing `txA`. -/
def walletA1 : MultisigWallet := (walletA.propose_transaction txA).1

/-- State of `walletA1` after `pkA` signs. -/
def walletA2 : MultisigWallet := (walletA1.add_signature txA.id sigA pkA).1

/-- State of `walletA2` after executing `txA`. -/
def walletA3 : MultisigWallet := (walletA2.execute_transaction txA.id).1

/-- The pending record of `walletA2`. -/
def recA : PendingTransaction :=
  { transaction := txA, signatures := [(pubkeyHex pkA, sigHex sigA)], executed := false }

/-- A 2-of-2 wallet built from a key list containing the same key twice
(the value `MultisigWallet.new 2 [pkA, pkA]` returns). -/
def dupWallet : MultisigWallet :=
  { threshold := 2, total_signers := 2, authorized_keys := [pkA, pkA],
    authorized_keys_hex := [pubkeyHex pkA, pubkeyHex pkA], pending_transactions := [] }

/-- Copy of `txA` with metadata `Some ""` instead of `None` (all other fields, id
included, unchanged). -/
def txAempty : Transaction := { txA with metadata := some "" }

/-! ## Association-list lemmas -/ 


theorem mapGet_insert_self {V : Type} (m : List (String × V)) (k : String) (v : V) :
    mapGet (mapInsert m k v) k = some v := by
  induction m with
  | nil => simp [mapInsert, mapGet]
  | cons hd tl ih =>
    by_cases h : hd.1 = k
    · simp [mapInsert, mapGet, h]
    · simpa [mapInsert, mapGet, h] using ih

theorem mapGet_insert_ne {V : Type} (m : List (String × V)) (k k' : String) (v : V)
    (h : k' ≠ k) : mapGet (mapInsert m k v) k' = mapGet m k' := by
  have hns : k ≠ k' := fun hc => h hc.symm
  induction m with
  | nil => simp [mapInsert, mapGet, hns]
  | cons hd tl ih =>
    by_cases hk : hd.1 = k
    · subst hk
      simp [mapInsert, mapGet, hns]
    · simp [mapInsert, mapGet, hk, ih]

theorem mapGet_none_iff {V : Type} (m : List (String × V)) (k : String) :
    mapGet m k = none ↔ k ∉ m.map Prod.fst := by
  induction m with
  | nil => simp [mapGet]
  | cons hd tl ih =>
    by_cases h : hd.1 = k
    · simp [mapGet, h, ih]
      try tauto
    · simp [mapGet, h, ih]
      try tauto

theorem mapContains_iff {V : Type} (m : List (String × V)) (k : String) :
    mapContains m k = true ↔ k ∈ m.map Prod.fst := by
  rw [mapContains]
  rcases hg : mapGet m k with _ | v
  · rw [mapGet_none_iff] at hg
    simp [hg]
  · have : k ∈ m.map Prod.fst := by
      by_contra hc
      rw [← mapGet_none_iff] at hc
      rw [hg] at hc
      cases hc
    simp [this]

theorem keys_insert_absent {V : Type} (m : List (String × V)) (k : String) (v : V)
    (h : mapGet m k = none) :
    (mapInsert m k v).map Prod.fst = m.map Prod.fst ++ [k] := by
  induction m with
  | nil => simp [mapInsert]
  | cons hd tl ih =>
    by_cases hk : hd.1 = k
    · simp [mapGet, hk] at h
    · simp [mapGet, hk] at h
      simp [mapInsert, hk, ih h]


/-! ## Shape of each mutating operation -/

theorem is_authorized_iff_mem (w : MultisigWallet) (pk : PublicKey) :
    w.is_authorized pk = true ↔ pk ∈ w.authorized_keys := by
  simp [MultisigWallet.is_authorized, List.any_eq_true]

theorem propose_state (w : MultisigWallet) (tx : Transaction) :
    (w.propose_transaction tx).1 =
      { w with pending_transactions :=
          mapInsert w.pending_transactions tx.id (proposeRecord tx) } := rfl

theorem propose_ok (w : MultisigWallet) (tx : Transaction) :
    (w.propose_transaction tx).2 = .ok () := rfl

/-- Case shape of `add_signature`: either the wallet is returned unchanged
(with some error), or every check passed and exactly the new signature
binding was inserted. -/
theorem add_signature_shape (w : MultisigWallet) (i : String) (s : Signature)
    (p : PublicKey) :
    (w.add_signature i s p).1 = w ∨
    (∃ pending, mapGet w.pending_transactions i = some pending ∧
      w.is_authorized p = true ∧
      pending.executed = false ∧
      mapContains pending.signatures (pubkeyHex p) = false ∧
      (w.add_signature i s p).2 = .ok () ∧
      (w.add_signature i s p).1 = recordSignature w i pending s p) := by
  by_cases ha : w.is_authorized p
  · rcases hg : mapGet w.pending_transactions i with _ | pending
    · left
      simp [MultisigWallet.add_signature, ha, hg]
    · by_cases hx : pending.executed
      · left
        simp [MultisigWallet.add_signature, ha, hg, hx]
      · have hx' : pending.executed = false := by simpa using hx
        by_cases hv : (decide (s.message = pending.transaction.to_bytes ∧
            s.signer = p.raw) : Bool)
        · by_cases hc : mapContains pending.signatures (pubkeyHex p)
          · left
            simp [MultisigWallet.add_signature, verify_signature, ha, hg, hx', hv, hc]
          · have hc' : mapContains pending.signatures (pubkeyHex p) = false := by
              simpa using hc
            right
            refine ⟨pending, rfl, ha, hx', hc', ?_, ?_⟩ <;>
              simp [MultisigWallet.add_signature, verify_signature, recordSignature,
                ha, hg, hx', hv, hc']
        · left
          simp [MultisigWallet.add_signature, verify_signature, ha, hg, hx', hv]
  · left
    simp [MultisigWallet.add_signature, ha]

/-- Case shape of `execute_transaction`: either the wallet is returned
unchanged, or the record was at threshold and unexecuted, and exactly its
`executed` flag was flipped. -/
theorem execute_shape (w : MultisigWallet) (i : String) :
    (w.execute_transaction i).1 = w ∨
    (∃ pending, mapGet w.pending_transactions i = some pending ∧
      pending.executed = false ∧
      w.threshold ≤ pending.signatures.length ∧
      (w.execute_transaction i).2 = .ok pending.transaction ∧
      (w.execute_transaction i).1 = markExecuted w i pending) := by
  unfold MultisigWallet.execute_transaction MultisigWallet.has_enough_signatures markExecuted
  rcases hg : mapGet w.pending_transactions i with _ | pending
  · simp [hg]
  · by_cases he : w.threshold ≤ pending.signatures.length
    · by_cases hx : pending.executed
      · simp [hg, he, hx]
      · right
        refine ⟨pending, rfl, by simpa using hx, he, ?_, ?_⟩ <;> simp [hg, he, hx]
    · simp [hg, he]

/-- The authorization policy fields are never changed by any operation. -/
theorem step_policy (w : MultisigWallet) (op : Op) :
    (step w op).threshold = w.threshold ∧
    (step w op).total_signers = w.total_signers ∧
    (step w op).authorized_keys = w.authorized_keys := by
  cases op with
  | propose tx => simp [step, propose_state]
  | addSig i s p =>
    rcases add_signature_shape w i s p with h | ⟨pending, _, _, _, _, _, h⟩ <;>
      simp [step, h, recordSignature]
  | execute i =>
    rcases execute_shape w i with h | ⟨pending, _, _, _, _, h⟩ <;>
      simp [step, h, markExecuted]

theorem run_cons (w : MultisigWallet) (op : Op) (ops : List Op) :
    run w (op :: ops) = run (step w op) ops := rfl

theorem run_policy (w : MultisigWallet) (ops : List Op) :
    (run w ops).threshold = w.threshold ∧
    (run w ops).total_signers = w.total_signers ∧
    (run w ops).authorized_keys = w.authorized_keys := by
  induction ops generalizing w with
  | nil => exact ⟨rfl, rfl, rfl⟩
  | cons op rest ih =>
    have hs := step_policy w op
    have hr := ih (step w op)
    rw [run_cons]
    exact ⟨hr.1.trans hs.1, hr.2.1.trans hs.2.1, hr.2.2.trans hs.2.2⟩

/-! ## The reachable-state invariant -/

theorem mapContains_eq_false_iff {V : Type} (m : List (String × V)) (k : String) :
    mapContains m k = false ↔ mapGet m k = none := by
  rw [mapContains]
  cases mapGet m k <;> simp

theorem inv_new (m : Nat) (keys : List PublicKey) (w : MultisigWallet)
    (h : MultisigWallet.new m keys = .ok w) : WalletInv w := by
  simp only [MultisigWallet.new] at h
  split at h
  · cases h
  · cases h
    refine ⟨rfl, ?_⟩
    intro k rec hget
    simp [mapGet] at hget

theorem inv_step (w : MultisigWallet) (op : Op) (h : WalletInv w) :
    WalletInv (step w op) := by
  obtain ⟨htot, hrec⟩ := h
  obtain ⟨hth, htots, hkeys⟩ := step_policy w op
  refine ⟨by rw [htots, hkeys, htot], ?_⟩
  intro k rec hget
  rw [hkeys]
  cases op with
  | propose tx =>
    simp only [step, propose_state] at hget
    by_cases hk : k = tx.id
    · subst hk
      rw [mapGet_insert_self] at hget
      cases hget
      refine ⟨rfl, by simp [proposeRecord], by simp [proposeRecord]⟩
    · rw [mapGet_insert_ne _ _ _ _ hk] at hget
      exact hrec k rec hget
  | addSig i s p =>
    simp only [step] at hget
    rcases add_signature_shape w i s p with hsame | ⟨pending, hg, hauth, hx, hc, _, hstate⟩
    · rw [hsame] at hget
      exact hrec k rec hget
    · rw [hstate] at hget
      simp only [recordSignature] at hget
      obtain ⟨hid, hnodup, hmem⟩ := hrec i pending hg
      have hnone : mapGet pending.signatures (pubkeyHex p) = none :=
        (mapContains_eq_false_iff _ _).mp hc
      have hnotmem : pubkeyHex p ∉ pending.signatures.map Prod.fst := by
        rw [← mapGet_none_iff]
        exact hnone
      by_cases hk : k = i
      · subst hk
        rw [mapGet_insert_self] at hget
        cases hget
        refine ⟨hid, ?_, ?_⟩
        · rw [keys_insert_absent _ _ _ hnone]
          simp [List.nodup_append, hnodup, hnotmem]
        · rw [keys_insert_absent _ _ _ hnone]
          intro sk hsk
          rcases List.mem_append.mp hsk with hold | hnew
          · exact hmem sk hold
          · refine ⟨p, (is_authorized_iff_mem w p).mp hauth, ?_⟩
            simpa using hnew
      · rw [mapGet_insert_ne _ _ _ _ hk] at hget
        exact hrec k rec hget
  | execute i =>
    simp only [step] at hget
    rcases execute_shape w i with hsame | ⟨pending, hg, hx, hlen, _, hstate⟩
    · rw [hsame] at hget
      exact hrec k rec hget
    · rw [hstate] at hget
      simp only [markExecuted] at hget
      obtain ⟨hid, hnodup, hmem⟩ := hrec i pending hg
      by_cases hk : k = i
      · subst hk
        rw [mapGet_insert_self] at hget
        cases hget
        exact ⟨hid, hnodup, hmem⟩
      · rw [mapGet_insert_ne _ _ _ _ hk] at hget
        exact hrec k rec hget

theorem inv_run (w : MultisigWallet) (ops : List Op) (h : WalletInv w) :
    WalletInv (run w ops) := by
  induction ops generalizing w with
  | nil => exact h
  | cons op rest ih =>
    rw [run_cons]
    exact ih (step w op) (inv_step w op h)

theorem inv_reachable (w : MultisigWallet) (h : Reachable w) : WalletInv w := by
  obtain ⟨m, keys, w0, ops, hnew, rfl⟩ := h
  exact inv_run w0 ops (inv_new m keys w0 hnew)

/-- A duplicate-free list of strings all drawn from `l'` is no longer
than `l'`. -/
theorem nodup_subset_length_le (l l' : List String) (hnd : l.Nodup)
    (hsub : ∀ x ∈ l, x ∈ l') : l.length ≤ l'.length := by
  calc l.length = l.toFinset.card := (List.toFinset_card_of_nodup hnd).symm
    _ ≤ l'.toFinset.card := Finset.card_le_card fun x hx =>
        List.mem_toFinset.mpr (hsub x (List.mem_toFinset.mp hx))
    _ ≤ l'.length := l'.toFinset_card_le

/-! ## Decimal rendering: `Nat.repr` is injective -/

theorem decChars_eq (n : Nat) :
    decChars n = (if n < 10 then [] else decChars (n / 10)) ++ [Nat.digitChar (n % 10)] := by
  rw [decChars]
  by_cases h : n < 10 <;> simp [h]

theorem decChars_ne_nil (n : Nat) : decChars n ≠ [] := by
  rw [decChars_eq]
  simp

theorem digitChar_inj10 : ∀ a < 10, ∀ b < 10, Nat.digitChar a = Nat.digitChar b → a = b := by
  decide

theorem decChars_inj (m : Nat) : ∀ n, decChars m = decChars n → m = n := by
  induction m using Nat.strong_induction_on with
  | _ m ih =>
    intro n h
    rw [decChars_eq m, decChars_eq n] at h
    obtain ⟨hfront, hlast⟩ := List.append_inj' h rfl
    have hmod : m % 10 = n % 10 :=
      digitChar_inj10 (m % 10) (Nat.mod_lt _ (by omega)) (n % 10)
        (Nat.mod_lt _ (by omega)) (by simpa using hlast)
    by_cases hm : m < 10 <;> by_cases hn : n < 10
    · omega
    · rw [if_pos hm, if_neg hn] at hfront
      exact absurd hfront.symm (decChars_ne_nil (n / 10))
    · rw [if_neg hm, if_pos hn] at hfront
      exact absurd hfront (decChars_ne_nil (m / 10))
    · rw [if_neg hm, if_neg hn] at hfront
      have hdiv : m / 10 = n / 10 :=
        ih (m / 10) (Nat.div_lt_self (by omega) (by omega)) (n / 10) hfront
      omega

theorem toDigitsCore_eq (n : Nat) : ∀ fuel ds, n < fuel →
    Nat.toDigitsCore 10 fuel n ds = decChars n ++ ds := by
  induction n using Nat.strong_induction_on with
  | _ n ih =>
    intro fuel ds hlt
    match fuel, hlt with
    | f + 1, hlt =>
      show (if n / 10 = 0 then Nat.digitChar (n % 10) :: ds
            else Nat.toDigitsCore 10 f (n / 10) (Nat.digitChar (n % 10) :: ds)) =
        decChars n ++ ds
      by_cases h0 : n / 10 = 0
      · have hn : n < 10 := by omega
        rw [if_pos h0, decChars_eq]
        simp [hn]
      · have hn : ¬ n < 10 := by omega
        rw [if_neg h0, ih (n / 10) (by omega) f (Nat.digitChar (n % 10) :: ds) (by omega),
          decChars_eq n]
        simp [hn]

theorem repr_eq_decChars (n : Nat) : Nat.repr n = (decChars n).asString := by
  show (Nat.toDigitsCore 10 (n + 1) n []).asString = (decChars n).asString
  rw [toDigitsCore_eq n (n + 1) [] (by omega)]
  simp

theorem nat_repr_inj {m n : Nat} (h : Nat.repr m = Nat.repr n) : m = n := by
  rw [repr_eq_decChars, repr_eq_decChars] at h
  exact decChars_inj m n (congrArg String.data h)

/-! ## String-level decomposition of the id payload -/

theorem string_data_inj {s t : String} (h : s.data = t.data) : s = t := by
  cases s
  cases t
  exact congrArg String.mk h

theorem idPayload_data (tx : Transaction) :
    (Transaction.idPayload tx).data =
      tx.recipient.data ++ ':' :: ((Nat.repr tx.amount).data ++ ':' ::
        ((tx.metadata.getD "").data ++ ':' :: ((Nat.repr tx.timestamp).data ++ ':' ::
          (Nat.repr tx.nonce).data))) := by
  have hc : (":" : String).data = [':'] := rfl
  simp [Transaction.idPayload, String.data_append, hc]

/-! ## Success and duplicate outcomes of `add_signature` -/

theorem add_signature_success (w : MultisigWallet) (tx_id : String) (s : Signature)
    (p : PublicKey) (pending : PendingTransaction)
    (hA : w.is_authorized p = true)
    (hget : mapGet w.pending_transactions tx_id = some pending)
    (hx : pending.executed = false)
    (hm : s.message = pending.transaction.to_bytes)
    (hs : s.signer = p.raw)
    (hC : mapContains pending.signatures (pubkeyHex p) = false) :
    w.add_signature tx_id s p = (recordSignature w tx_id pending s p, .ok ()) := by
  simp [MultisigWallet.add_signature, hA, hget, hx, verify_signature, hm, hs, hC,
    recordSignature]

theorem add_signature_duplicate (w : MultisigWallet) (tx_id : String) (s : Signature)
    (p : PublicKey) (pending : PendingTransaction)
    (hA : w.is_authorized p = true)
    (hget : mapGet w.pending_transactions tx_id = some pending)
    (hx : pending.executed = false)
    (hm : s.message = pending.transaction.to_bytes)
    (hs : s.signer = p.raw)
    (hC : mapContains pending.signatures (pubkeyHex p) = true) :
    w.add_signature tx_id s p = (w, .error .DuplicateSignature) := by
  simp [MultisigWallet.add_signature, hA, hget, hx, verify_signature, hm, hs, hC]

theorem is_authorized_congr (w1 w2 : MultisigWallet) (q : PublicKey)
    (h : w1.authorized_keys = w2.authorized_keys) :
    w1.is_authorized q = w2.is_authorized q := by
  simp [MultisigWallet.is_authorized, h]

/-! ## Claim theorems -/

/-- C6: `MultisigWallet::new(threshold, authorized_keys)` succeeds iff
`1 ≤ threshold ≤ authorized_keys.len()`; for `threshold = 0` or
`threshold > len` it fails with `InvalidThreshold {m := threshold, n := len}`;
on success the wallet holds exactly that threshold, `total_signers` equal to
the list length, and an empty pending-transaction map. -/
theorem new_threshold_boundary (threshold : Nat) (keys : List PublicKey) :
    ((∃ w, MultisigWallet.new threshold keys = .ok w) ↔
      1 ≤ threshold ∧ threshold ≤ keys.length) ∧
    (threshold = 0 ∨ threshold > keys.length →
      MultisigWallet.new threshold keys =
        .error (.InvalidThreshold threshold keys.length)) ∧
    ∀ w, MultisigWallet.new threshold keys = .ok w →
      w.threshold = threshold ∧ w.total_signers = keys.length ∧
      w.pending_transactions = [] := by
  by_cases hc : threshold = 0 ∨ threshold > keys.length
  · refine ⟨?_, fun _ => by simp [MultisigWallet.new, hc], ?_⟩
    · constructor
      · rintro ⟨w, hw⟩
        simp [MultisigWallet.new, hc] at hw
      · intro h
        omega
    · intro w hw
      simp [MultisigWallet.new, hc] at hw
  · refine ⟨?_, fun h => absurd h hc, ?_⟩
    · constructor
      · intro _
        omega
      · intro _
        rcases hv : MultisigWallet.new threshold keys with e | w
        · simp [MultisigWallet.new, hc] at hv
        · exact ⟨w, rfl⟩
    · intro w hw
      simp only [MultisigWallet.new, hc, if_false] at hw
      cases hw
      exact ⟨rfl, rfl, rfl⟩

/-- C6 witness: `new 1 [pkA]` succeeds and yields `walletA`. -/
theorem new_threshold_boundary_witness :
    (1 ≤ 1 ∧ 1 ≤ [pkA].length) ∧
    walletA.threshold = 1 ∧ walletA.total_signers = [pkA].length ∧
    walletA.pending_transactions = [] :=
  ⟨(new_threshold_boundary 1 [pkA]).1.mp ⟨walletA, rfl⟩,
   (new_threshold_boundary 1 [pkA]).2.2 walletA rfl⟩

/-- C5: every failing operation leaves the wallet state unchanged: a failing
`new` constructs no wallet, a failing `add_signature` records nothing, and a
failing `execute_transaction` changes nothing. -/
theorem errors_leave_state_unchanged (w : MultisigWallet) (tx_id : String)
    (s : Signature) (p : PublicKey) (m : Nat) (keys : List PublicKey) :
    (∀ e, MultisigWallet.new m keys = .error e →
      ∀ w', MultisigWallet.new m keys ≠ .ok w') ∧
    (∀ e, (w.add_signature tx_id s p).2 = .error e →
      (w.add_signature tx_id s p).1 = w) ∧
    ∀ e, (w.execute_transaction tx_id).2 = .error e →
      (w.execute_transaction tx_id).1 = w := by
  refine ⟨?_, ?_, ?_⟩
  · intro e he w' hok
    rw [he] at hok
    cases hok
  · intro e he
    rcases add_signature_shape w tx_id s p with hsame | ⟨pending, _, _, _, _, hok, _⟩
    · exact hsame
    · rw [hok] at he
      cases he
  · intro e he
    rcases execute_shape w tx_id with hsame | ⟨pending, _, _, _, hok, _⟩
    · exact hsame
    · rw [hok] at he
      cases he

/-- C5 witness: a `TransactionNotFound` failure of both `add_signature` and
`execute_transaction` on the empty wallet leaves it unchanged. -/
theorem errors_leave_state_unchanged_witness :
    (walletA.add_signature txA.id sigA pkA).1 = walletA ∧
    (walletA.execute_transaction txA.id).1 = walletA :=
  ⟨(errors_leave_state_unchanged walletA txA.id sigA pkA 0 []).2.1
      .TransactionNotFound rfl,
   (errors_leave_state_unchanged walletA txA.id sigA pkA 0 []).2.2
      .TransactionNotFound rfl⟩

/-- C2: `add_signature` performs its five checks in the spec's exact order and
returns the first applicable error — `UnauthorizedSigner`, then
`TransactionNotFound`, then `TransactionAlreadyExecuted`, then
`InvalidSignature` (so a duplicate submission with an invalid signature gets
`InvalidSignature`), then `DuplicateSignature` — and otherwise records the
signature under the signer's derived hex identifier. -/
theorem add_signature_check_order (w : MultisigWallet) (tx_id : String)
    (s : Signature) (p : PublicKey) :
    (w.add_signature tx_id s p).2 = addSignatureSpec w tx_id s p ∧
    ((w.add_signature tx_id s p).2 = .ok () →
      ∀ pending, mapGet w.pending_transactions tx_id = some pending →
        (w.add_signature tx_id s p).1 = recordSignature w tx_id pending s p) := by
  constructor
  · by_cases ha : w.is_authorized p
    · rcases hg : mapGet w.pending_transactions tx_id with _ | pending
      · simp [MultisigWallet.add_signature, addSignatureSpec, ha, hg]
      · by_cases hx : pending.executed
        · simp [MultisigWallet.add_signature, addSignatureSpec, ha, hg, hx]
        · have hx' : pending.executed = false := by simpa using hx
          by_cases hv : (decide (s.message = pending.transaction.to_bytes ∧
              s.signer = p.raw) : Bool)
          · by_cases hc : mapContains pending.signatures (pubkeyHex p) <;>
              simp [MultisigWallet.add_signature, addSignatureSpec, verify_signature,
                ha, hg, hx', hv, hc]
          · simp [MultisigWallet.add_signature, addSignatureSpec, verify_signature,
              ha, hg, hx', hv]
    · simp [MultisigWallet.add_signature, addSignatureSpec, ha]
  · intro hok pending hget
    by_cases ha : w.is_authorized p
    · by_cases hx : pending.executed
      · have herr : (w.add_signature tx_id s p).2 = .error .TransactionAlreadyExecuted := by
          simp [MultisigWallet.add_signature, ha, hget, hx]
        rw [herr] at hok
        cases hok
      · have hx' : pending.executed = false := by simpa using hx
        by_cases hv : (decide (s.message = pending.transaction.to_bytes ∧
            s.signer = p.raw) : Bool)
        · obtain ⟨hv1, hv2⟩ := of_decide_eq_true hv
          by_cases hc : mapContains pending.signatures (pubkeyHex p)
          · have herr : (w.add_signature tx_id s p).2 = .error .DuplicateSignature := by
              rw [add_signature_duplicate w tx_id s p pending ha hget hx' hv1 hv2 hc]
            rw [herr] at hok
            cases hok
          · have hc' : mapContains pending.signatures (pubkeyHex p) = false := by
              simpa using hc
            rw [add_signature_success w tx_id s p pending ha hget hx' hv1 hv2 hc']
        · have herr : (w.add_signature tx_id s p).2 = .error .InvalidSignature := by
            simp [MultisigWallet.add_signature, ha, hget, hx', verify_signature, hv]
          rw [herr] at hok
          cases hok
    · have herr : (w.add_signature tx_id s p).2 = .error .UnauthorizedSigner := by
        simp [MultisigWallet.add_signature, ha]
      rw [herr] at hok
      cases hok

/-- C2 witness: a successful admission on `walletA1` matches the spec's
outcome and records the signature. -/
theorem add_signature_check_order_witness :
    (walletA1.add_signature txA.id sigA pkA).2 =
      addSignatureSpec walletA1 txA.id sigA pkA ∧
    (walletA1.add_signature txA.id sigA pkA).1 =
      recordSignature walletA1 txA.id (proposeRecord txA) sigA pkA :=
  ⟨(add_signature_check_order walletA1 txA.id sigA pkA).1,
   (add_signature_check_order walletA1 txA.id sigA pkA).2 rfl (proposeRecord txA) rfl⟩

/-- C1: for a proposed transaction id, `execute_transaction` fails with
`InsufficientSignatures {required := threshold, actual := count}` whenever the
count is below the threshold (leaving the state unchanged); at or above the
threshold with the record unexecuted, it flips `executed` and returns a copy
of the stored transaction; and a second call on the same id then always fails
with `TransactionAlreadyExecuted`. -/
theorem execute_transaction_gating (w : MultisigWallet) (tx_id : String)
    (rec : PendingTransaction)
    (hget : mapGet w.pending_transactions tx_id = some rec) :
    (rec.signatures.length < w.threshold →
      (w.execute_transaction tx_id).2 =
        .error (.InsufficientSignatures w.threshold rec.signatures.length) ∧
      (w.execute_transaction tx_id).1 = w) ∧
    (w.threshold ≤ rec.signatures.length → rec.executed = false →
      (w.execute_transaction tx_id).2 = .ok rec.transaction ∧
      mapGet (w.execute_transaction tx_id).1.pending_transactions tx_id =
        some (setExecuted rec) ∧
      ((w.execute_transaction tx_id).1.execute_transaction tx_id).2 =
        .error .TransactionAlreadyExecuted ∧
      ((w.execute_transaction tx_id).1.execute_transaction tx_id).1 =
        (w.execute_transaction tx_id).1) := by
  constructor
  · intro hlt
    have hne : ¬ w.threshold ≤ rec.signatures.length := by omega
    constructor <;>
      simp [MultisigWallet.execute_transaction, MultisigWallet.has_enough_signatures,
        hget, hne]
  · intro hge hx
    have hfst : (w.execute_transaction tx_id).1 = markExecuted w tx_id rec := by
      simp [MultisigWallet.execute_transaction, MultisigWallet.has_enough_signatures,
        hget, hge, hx, markExecuted]
    have hsnd : (w.execute_transaction tx_id).2 = .ok rec.transaction := by
      simp [MultisigWallet.execute_transaction, MultisigWallet.has_enough_signatures,
        hget, hge, hx]
    have hget' : mapGet (w.execute_transaction tx_id).1.pending_transactions tx_id =
        some (setExecuted rec) := by
      rw [hfst]
      simp only [markExecuted]
      rw [mapGet_insert_self]
      rfl
    refine ⟨hsnd, hget', ?_, ?_⟩ <;>
    · rw [hfst]
      have hth : (markExecuted w tx_id rec).threshold = w.threshold := rfl
      simp [MultisigWallet.execute_transaction, MultisigWallet.has_enough_signatures,
        markExecuted, mapGet_insert_self, setExecuted, hge, hth]

/-- C1 witness: on `walletA2` (one admitted signature, threshold 1) execution
succeeds once, marks the record executed, and then always fails with
`TransactionAlreadyExecuted`. -/
theorem execute_transaction_gating_witness :
    (walletA2.execute_transaction txA.id).2 = .ok recA.transaction ∧
    mapGet (walletA2.execute_transaction txA.id).1.pending_transactions txA.id =
      some (setExecuted recA) ∧
    ((walletA2.execute_transaction txA.id).1.execute_transaction txA.id).2 =
      .error .TransactionAlreadyExecuted ∧
    ((walletA2.execute_transaction txA.id).1.execute_transaction txA.id).1 =
      (walletA2.execute_transaction txA.id).1 :=
  (execute_transaction_gating walletA2 txA.id recA rfl).2 (by decide) rfl

/-- C3 counterexample: "Executed is terminal" fails for `propose_transaction`.
In `walletA3` the record for `txA.id` is executed, yet re-proposing `txA`
(an operation of the wallet) overwrites it with a record whose `executed`
flag is `false` and whose signature set is empty. -/
theorem executed_terminal_counterexample :
    (mapGet walletA3.pending_transactions txA.id).map PendingTransaction.executed =
      some true ∧
    mapGet (walletA3.propose_transaction txA).1.pending_transactions txA.id =
      some (proposeRecord txA) ∧
    (proposeRecord txA).executed = false ∧
    (proposeRecord txA).signatures = [] :=
  ⟨rfl, rfl, rfl, rfl⟩

/-- C3 (amended): once a pending record is executed, `add_signature` and
`execute_transaction` can never change it — its `executed` flag never reverts
and its signature set is never emptied; the one exception forced by the code
is `propose_transaction`, whose unconditional overwrite of the same id
replaces the record with a fresh unexecuted one. -/
theorem executed_terminal_except_propose (w : MultisigWallet) (k : String)
    (rec : PendingTransaction)
    (hget : mapGet w.pending_transactions k = some rec)
    (hexec : rec.executed = true) :
    (∀ i s p, mapGet (w.add_signature i s p).1.pending_transactions k = some rec) ∧
    ∀ i, mapGet (w.execute_transaction i).1.pending_transactions k = some rec := by
  constructor
  · intro i s p
    rcases add_signature_shape w i s p with hsame | ⟨pending, hg, _, hx, _, _, hstate⟩
    · rw [hsame]
      exact hget
    · rw [hstate]
      simp only [recordSignature]
      by_cases hk : k = i
      · subst hk
        rw [hget] at hg
        cases hg
        rw [hexec] at hx
        cases hx
      · rw [mapGet_insert_ne _ _ _ _ hk]
        exact hget
  · intro i
    rcases execute_shape w i with hsame | ⟨pending, hg, hx, _, _, hstate⟩
    · rw [hsame]
      exact hget
    · rw [hstate]
      simp only [markExecuted]
      by_cases hk : k = i
      · subst hk
        rw [hget] at hg
        cases hg
        rw [hexec] at hx
        cases hx
      · rw [mapGet_insert_ne _ _ _ _ hk]
        exact hget

/-- C3 witness: the executed record of `walletA3` survives a further
`add_signature` and a further `execute_transaction` unchanged. -/
theorem executed_terminal_except_propose_witness :
    mapGet (walletA3.add_signature txA.id sigA pkA).1.pending_transactions txA.id =
      some (setExecuted recA) ∧
    mapGet (walletA3.execute_transaction txA.id).1.pending_transactions txA.id =
      some (setExecuted recA) :=
  ⟨(executed_terminal_except_propose walletA3 txA.id (setExecuted recA) rfl rfl).1
      txA.id sigA pkA,
   (executed_terminal_except_propose walletA3 txA.id (setExecuted recA) rfl rfl).2
      txA.id⟩

/-- C4 counterexample: the transaction id is NOT sensitive to every metadata
change — `None` and `Some ""` produce the same pre-hash canonical encoding
(`unwrap_or("")` erases the distinction) and therefore the same id. -/
theorem calculate_id_metadata_counterexample :
    txA.metadata ≠ txAempty.metadata ∧
    txA.recipient = txAempty.recipient ∧
    txA.amount = txAempty.amount ∧
    txA.timestamp = txAempty.timestamp ∧
    txA.nonce = txAempty.nonce ∧
    txA.idPayload = txAempty.idPayload ∧
    txA.calculate_id = txAempty.calculate_id :=
  ⟨by simp [txA, txAempty, Transaction.new], rfl, rfl, rfl, rfl, rfl, rfl⟩

/-- C4 (amended): the id is a pure function of the 5-tuple (recipient, amount,
metadata, timestamp, nonce); changing recipient, amount, timestamp or nonce
alone always changes the pre-hash canonical encoding; changing metadata alone
changes it exactly when the encoded text `metadata.unwrap_or("")` changes —
so all pairs of distinct metadata values separate except `None` versus
`Some ""`. -/
theorem calculate_id_field_sensitivity (t1 t2 : Transaction) :
    (t1.recipient = t2.recipient → t1.amount = t2.amount →
      t1.metadata = t2.metadata → t1.timestamp = t2.timestamp →
      t1.nonce = t2.nonce → t1.calculate_id = t2.calculate_id) ∧
    (t1.amount = t2.amount → t1.metadata = t2.metadata →
      t1.timestamp = t2.timestamp → t1.nonce = t2.nonce →
      t1.recipient ≠ t2.recipient → t1.idPayload ≠ t2.idPayload) ∧
    (t1.recipient = t2.recipient → t1.metadata = t2.metadata →
      t1.timestamp = t2.timestamp → t1.nonce = t2.nonce →
      t1.amount ≠ t2.amount → t1.idPayload ≠ t2.idPayload) ∧
    (t1.recipient = t2.recipient → t1.amount = t2.amount →
      t1.metadata = t2.metadata → t1.nonce = t2.nonce →
      t1.timestamp ≠ t2.timestamp → t1.idPayload ≠ t2.idPayload) ∧
    (t1.recipient = t2.recipient → t1.amount = t2.amount →
      t1.metadata = t2.metadata → t1.timestamp = t2.timestamp →
      t1.nonce ≠ t2.nonce → t1.idPayload ≠ t2.idPayload) ∧
    (t1.recipient = t2.recipient → t1.amount = t2.amount →
      t1.timestamp = t2.timestamp → t1.nonce = t2.nonce →
      (t1.idPayload = t2.idPayload ↔ t1.metadata.getD "" = t2.metadata.getD "")) := by
  refine ⟨?_, ?_, ?_, ?_, ?_, ?_⟩
  · intro h1 h2 h3 h4 h5
    simp only [Transaction.calculate_id, Transaction.idPayload, h1, h2, h3, h4, h5]
  · intro ham hmet hts hn hne heq
    apply hne
    have hd := congrArg String.data heq
    rw [idPayload_data, idPayload_data, ham, hmet, hts, hn] at hd
    exact string_data_inj (List.append_cancel_right hd)
  · intro hrec hmet hts hn hne heq
    apply hne
    have hd := congrArg String.data heq
    rw [idPayload_data, idPayload_data, hrec, hmet, hts, hn] at hd
    have h2 := List.append_cancel_left hd
    injection h2 with _ h3
    exact nat_repr_inj (string_data_inj (List.append_cancel_right h3))
  · intro hrec ham hmet hn hne heq
    apply hne
    have hd := congrArg String.data heq
    rw [idPayload_data, idPayload_data, hrec, ham, hmet, hn] at hd
    have h2 := List.append_cancel_left hd
    injection h2 with _ h3
    have h4 := List.append_cancel_left h3
    injection h4 with _ h5
    have h6 := List.append_cancel_left h5
    injection h6 with _ h7
    exact nat_repr_inj (string_data_inj (List.append_cancel_right h7))
  · intro hrec ham hmet hts hne heq
    apply hne
    have hd := congrArg String.data heq
    rw [idPayload_data, idPayload_data, hrec, ham, hmet, hts] at hd
    have h2 := List.append_cancel_left hd
    injection h2 with _ h3
    have h4 := List.append_cancel_left h3
    injection h4 with _ h5
    have h6 := List.append_cancel_left h5
    injection h6 with _ h7
    have h8 := List.append_cancel_left h7
    injection h8 with _ h9
    exact nat_repr_inj (string_data_inj h9)
  · intro hrec ham hts hn
    constructor
    · intro heq
      have hd := congrArg String.data heq
      rw [idPayload_data, idPayload_data, hrec, ham, hts, hn] at hd
      have h2 := List.append_cancel_left hd
      injection h2 with _ h3
      have h4 := List.append_cancel_left h3
      injection h4 with _ h5
      exact string_data_inj (List.append_cancel_right h5)
    · intro hm
      simp only [Transaction.idPayload, hrec, ham, hts, hn, hm]

/-- C4 witness: two transactions differing only in the nonce have different
pre-hash canonical encodings, and re-creating `txA`'s 5-tuple reproduces
`txA`'s id. -/
theorem calculate_id_field_sensitivity_witness :
    txA.idPayload ≠ (({ txA with nonce := 1 } : Transaction)).idPayload ∧
    txA.calculate_id = (({ txA with id := "other" } : Transaction)).calculate_id :=
  ⟨(calculate_id_field_sensitivity txA ({ txA with nonce := 1 })).2.2.2.2.1
      rfl rfl rfl rfl (by decide),
   (calculate_id_field_sensitivity txA ({ txA with id := "other" })).1
      rfl rfl rfl rfl rfl⟩

/-- C8: in every reachable wallet state, every key of every pending record's
signature map is the derived hex identifier of some member of
`authorized_keys`; consequently `get_signature_count` never exceeds
`total_signers`, and only authorized signers contribute to the threshold. -/
theorem signature_keys_authorized (w : MultisigWallet) (hr : Reachable w)
    (k : String) (rec : PendingTransaction)
    (hget : mapGet w.pending_transactions k = some rec) :
    (∀ sk ∈ rec.signatures.map Prod.fst,
      ∃ pk, pk ∈ w.authorized_keys ∧ sk = pubkeyHex pk) ∧
    rec.signatures.length ≤ w.total_signers ∧
    ∀ n, w.get_signature_count k = .ok n → n ≤ w.total_signers := by
  obtain ⟨htot, hrec⟩ := inv_reachable w hr
  obtain ⟨hid, hnodup, hmem⟩ := hrec k rec hget
  have hlen : rec.signatures.length ≤ w.total_signers := by
    have hb := nodup_subset_length_le (rec.signatures.map Prod.fst)
      (w.authorized_keys.map pubkeyHex) hnodup ?_
    · simpa [htot] using hb
    · intro x hx
      obtain ⟨pk, hpk, rfl⟩ := hmem x hx
      exact List.mem_map.mpr ⟨pk, hpk, rfl⟩
  refine ⟨hmem, hlen, ?_⟩
  intro n hn
  unfold MultisigWallet.get_signature_count at hn
  rw [hget] at hn
  cases hn
  exact hlen

/-- C8 witness: in the reachable state `walletA2` the single signature key is
`pkA`'s hex identifier and the count is within `total_signers`. -/
theorem signature_keys_authorized_witness :
    recA.signatures.length ≤ walletA2.total_signers ∧
    (1 : Nat) ≤ walletA2.total_signers :=
  ⟨(signature_keys_authorized walletA2
      ⟨1, [pkA], walletA, [Op.propose txA, Op.addSig txA.id sigA pkA], rfl, rfl⟩
      txA.id recA rfl).2.1,
   (signature_keys_authorized walletA2
      ⟨1, [pkA], walletA, [Op.propose txA, Op.addSig txA.id sigA pkA], rfl, rfl⟩
      txA.id recA rfl).2.2 1 rfl⟩

/-- C9: in every reachable wallet state every key of the pending map equals
the `id` field of the `Transaction` stored under it, and neither
`add_signature` nor `execute_transaction` ever replaces the stored
transaction of any record — so operations keyed by a transaction's own id
operate on exactly that transaction. -/
theorem pending_key_matches_stored_id (w : MultisigWallet) (hr : Reachable w) :
    (∀ k rec, mapGet w.pending_transactions k = some rec →
      rec.transaction.id = k) ∧
    (∀ i s p k rec rec', mapGet w.pending_transactions k = some rec →
      mapGet (w.add_signature i s p).1.pending_transactions k = some rec' →
      rec'.transaction = rec.transaction) ∧
    ∀ i k rec rec', mapGet w.pending_transactions k = some rec →
      mapGet (w.execute_transaction i).1.pending_transactions k = some rec' →
      rec'.transaction = rec.transaction := by
  refine ⟨fun k rec h => ((inv_reachable w hr).2 k rec h).1, ?_, ?_⟩
  · intro i s p k rec rec' hget hget'
    rcases add_signature_shape w i s p with hsame | ⟨pending, hg, _, _, _, _, hstate⟩
    · rw [hsame, hget] at hget'
      cases hget'
      rfl
    · rw [hstate] at hget'
      simp only [recordSignature] at hget'
      by_cases hk : k = i
      · subst hk
        rw [hget] at hg
        cases hg
        rw [mapGet_insert_self] at hget'
        cases hget'
        rfl
      · rw [mapGet_insert_ne _ _ _ _ hk, hget] at hget'
        cases hget'
        rfl
  · intro i k rec rec' hget hget'
    rcases execute_shape w i with hsame | ⟨pending, hg, _, _, _, hstate⟩
    · rw [hsame, hget] at hget'
      cases hget'
      rfl
    · rw [hstate] at hget'
      simp only [markExecuted] at hget'
      by_cases hk : k = i
      · subst hk
        rw [hget] at hg
        cases hg
        rw [mapGet_insert_self] at hget'
        cases hget'
        rfl
      · rw [mapGet_insert_ne _ _ _ _ hk, hget] at hget'
        cases hget'
        rfl

/-- C9 witness: in `walletA1` the stored record's transaction id is its key,
and both a signature admission and an execution keep the stored transaction. -/
theorem pending_key_matches_stored_id_witness :
    (proposeRecord txA).transaction.id = txA.id ∧
    recA.transaction = (proposeRecord txA).transaction ∧
    (setExecuted recA).transaction = recA.transaction :=
  ⟨(pending_key_matches_stored_id walletA1
      ⟨1, [pkA], walletA, [Op.propose txA], rfl, rfl⟩).1 txA.id (proposeRecord txA) rfl,
   (pending_key_matches_stored_id walletA1
      ⟨1, [pkA], walletA, [Op.propose txA], rfl, rfl⟩).2.1 txA.id sigA pkA
      txA.id (proposeRecord txA) recA rfl rfl,
   (pending_key_matches_stored_id walletA2
      ⟨1, [pkA], walletA, [Op.propose txA, Op.addSig txA.id sigA pkA], rfl, rfl⟩).2.2
      txA.id txA.id recA (setExecuted recA) rfl rfl⟩

/-- A duplicate-free list whose members all equal `a` has at most one
element. -/
theorem nodup_all_eq_length_le_one (l : List String) (a : String)
    (hnd : l.Nodup) (hall : ∀ x ∈ l, x = a) : l.length ≤ 1 := by
  match l, hnd, hall with
  | [], _, _ => simp
  | [x], _, _ => simp
  | x :: y :: rest, hnd, hall =>
    exfalso
    have hx : x = a := hall x (by simp)
    have hy : y = a := hall y (by simp)
    rw [List.nodup_cons] at hnd
    exact hnd.1 (by simp [hx, hy])

/-- C10: `MultisigWallet::new` does not deduplicate the key list — `new 2
[pkA, pkA]` succeeds with `total_signers = 2` — yet signatures are keyed by
the derived hex identifier, so in every state reachable from that wallet at
most one signature can ever be admitted per record and
`has_enough_signatures` can never become `true`. -/
theorem new_does_not_dedup :
    MultisigWallet.new 2 [pkA, pkA] = .ok dupWallet ∧
    dupWallet.total_signers = 2 ∧
    dupWallet.threshold = 2 ∧
    ∀ ops tx_id b, (run dupWallet ops).has_enough_signatures tx_id = .ok b →
      b = false := by
  refine ⟨rfl, rfl, rfl, ?_⟩
  intro ops tx_id b hb
  have hinv : WalletInv (run dupWallet ops) := by
    refine inv_run dupWallet ops ⟨rfl, ?_⟩
    intro k rec h
    simp [dupWallet, mapGet] at h
  obtain ⟨hth, _, hkeys⟩ := run_policy dupWallet ops
  unfold MultisigWallet.has_enough_signatures at hb
  rcases hget : mapGet (run dupWallet ops).pending_transactions tx_id with _ | rec
  · rw [hget] at hb
    cases hb
  · rw [hget] at hb
    obtain ⟨_, hrec⟩ := hinv
    obtain ⟨_, hnodup, hmem⟩ := hrec tx_id rec hget
    have hall : ∀ x ∈ rec.signatures.map Prod.fst, x = pubkeyHex pkA := by
      intro x hx
      obtain ⟨pk, hpk, rfl⟩ := hmem x hx
      rw [hkeys] at hpk
      have : pk = pkA := by
        simpa [dupWallet] using hpk
      rw [this]
    have hlen : rec.signatures.length ≤ 1 := by
      have hb1 := nodup_all_eq_length_le_one (rec.signatures.map Prod.fst)
        (pubkeyHex pkA) hnodup hall
      simpa using hb1
    cases hb
    rw [hth]
    simp only [dupWallet]
    simp
    omega

/-- C10 witness: after proposing `txA` on the duplicate-key wallet,
`has_enough_signatures` reports `false`. -/
theorem new_does_not_dedup_witness :
    (run dupWallet [Op.propose txA]).has_enough_signatures txA.id = .ok false ∧
    false = false :=
  ⟨rfl, new_does_not_dedup.2.2.2 [Op.propose txA] txA.id false rfl⟩

/-- Folding `add_signature` over a list of distinct, authorized, valid
signers starting from an unexecuted record: every call succeeds and the
signature keys grow by exactly the signers' hex identifiers, in order. -/
theorem runAdds_spec (tx_id : String) (tx : Transaction) :
    ∀ (L : List (Signature × PublicKey)) (w : MultisigWallet)
      (sigs : List (String × String)),
    mapGet w.pending_transactions tx_id =
      some { transaction := tx, signatures := sigs, executed := false } →
    (∀ p ∈ L, w.is_authorized p.2 = true) →
    (∀ p ∈ L, p.1.message = tx.to_bytes ∧ p.1.signer = p.2.raw) →
    (L.map fun p => pubkeyHex p.2).Nodup →
    (∀ p ∈ L, pubkeyHex p.2 ∉ sigs.map Prod.fst) →
    (runAdds w tx_id L).2 = true ∧
    ∃ sigs', mapGet (runAdds w tx_id L).1.pending_transactions tx_id =
        some { transaction := tx, signatures := sigs', executed := false } ∧
      sigs'.map Prod.fst = sigs.map Prod.fst ++ L.map (fun p => pubkeyHex p.2) ∧
      (runAdds w tx_id L).1.threshold = w.threshold ∧
      (runAdds w tx_id L).1.authorized_keys = w.authorized_keys := by
  intro L
  induction L with
  | nil =>
    intro w sigs hget _ _ _ _
    exact ⟨rfl, sigs, hget, by simp, rfl, rfl⟩
  | cons p rest ih =>
    intro w sigs hget hauth hvalid hnodup hfresh
    have hA : w.is_authorized p.2 = true := hauth p (by simp)
    have hV := hvalid p (by simp)
    have hfr : pubkeyHex p.2 ∉ sigs.map Prod.fst := hfresh p (by simp)
    have hnone : mapGet sigs (pubkeyHex p.2) = none := (mapGet_none_iff _ _).mpr hfr
    have hC : mapContains sigs (pubkeyHex p.2) = false :=
      (mapContains_eq_false_iff _ _).mpr hnone
    have hres := add_signature_success w tx_id p.1 p.2
      { transaction := tx, signatures := sigs, executed := false }
      hA hget rfl hV.1 hV.2 hC
    have hstep1 : (runAdds w tx_id (p :: rest)).1 =
        (runAdds (recordSignature w tx_id
          { transaction := tx, signatures := sigs, executed := false } p.1 p.2)
          tx_id rest).1 := by
      simp only [runAdds, hres]
    have hstep2 : (runAdds w tx_id (p :: rest)).2 =
        (runAdds (recordSignature w tx_id
          { transaction := tx, signatures := sigs, executed := false } p.1 p.2)
          tx_id rest).2 := by
      simp only [runAdds, hres]
      simp
    have hget' : mapGet (recordSignature w tx_id
        { transaction := tx, signatures := sigs, executed := false } p.1 p.2).pending_transactions
        tx_id = some
          { transaction := tx, signatures := mapInsert sigs (pubkeyHex p.2) (sigHex p.1),
            executed := false } := by
      simp only [recordSignature]
      rw [mapGet_insert_self]
    have hauth' : ∀ q ∈ rest, (recordSignature w tx_id
        { transaction := tx, signatures := sigs, executed := false } p.1 p.2).is_authorized
          q.2 = true := by
      intro q hq
      exact hauth q (by simp [hq])
    have hnodup' : (rest.map fun q => pubkeyHex q.2).Nodup :=
      (List.nodup_cons.mp hnodup).2
    have hheadfresh : pubkeyHex p.2 ∉ rest.map fun q => pubkeyHex q.2 :=
      (List.nodup_cons.mp hnodup).1
    have hfresh' : ∀ q ∈ rest, pubkeyHex q.2 ∉
        (mapInsert sigs (pubkeyHex p.2) (sigHex p.1)).map Prod.fst := by
      intro q hq
      rw [keys_insert_absent _ _ _ hnone]
      intro hmem
      rcases List.mem_append.mp hmem with hold | hnew
      · exact hfresh q (by simp [hq]) hold
      · have : pubkeyHex q.2 = pubkeyHex p.2 := by simpa using hnew
        exact hheadfresh (this ▸ List.mem_map.mpr ⟨q, hq, rfl⟩)
    obtain ⟨hok, sigs', hget'', hkeys', hth', hASK⟩ :=
      ih (recordSignature w tx_id
        { transaction := tx, signatures := sigs, executed := false } p.1 p.2)
        (mapInsert sigs (pubkeyHex p.2) (sigHex p.1))
        hget' hauth' (fun q hq => hvalid q (by simp [hq])) hnodup' hfresh'
    refine ⟨by rw [hstep2]; exact hok, sigs', by rw [hstep1]; exact hget'', ?_, ?_, ?_⟩
    · rw [hkeys', keys_insert_absent _ _ _ hnone]
      simp
    · rw [hstep1]
      exact hth'
    · rw [hstep1]
      exact hASK

/-- C7: after K successful `add_signature` calls by K distinct authorized
signers, each with a valid signature over the transaction's canonical bytes,
`get_signature_count` returns K and `has_enough_signatures` returns
`K ≥ threshold`; a further valid submission by an already-recorded signer is
rejected with `DuplicateSignature` and leaves the wallet (and the count)
unchanged. -/
theorem monotonic_signature_admission (w : MultisigWallet) (tx_id : String)
    (tx : Transaction) (L : List (Signature × PublicKey))
    (hget : mapGet w.pending_transactions tx_id =
      some { transaction := tx, signatures := [], executed := false })
    (hauth : ∀ p ∈ L, w.is_authorized p.2 = true)
    (hvalid : ∀ p ∈ L, p.1.message = tx.to_bytes ∧ p.1.signer = p.2.raw)
    (hnodup : (L.map fun p => pubkeyHex p.2).Nodup) :
    (runAdds w tx_id L).2 = true ∧
    (runAdds w tx_id L).1.get_signature_count tx_id = .ok L.length ∧
    (runAdds w tx_id L).1.has_enough_signatures tx_id =
      .ok (decide (w.threshold ≤ L.length)) ∧
    ∀ p ∈ L, ∀ s' : Signature, s'.message = tx.to_bytes → s'.signer = p.2.raw →
      (runAdds w tx_id L).1.add_signature tx_id s' p.2 =
        ((runAdds w tx_id L).1, .error .DuplicateSignature) := by
  obtain ⟨hok, sigs', hget', hkeys', hth', hASK⟩ :=
    runAdds_spec tx_id tx L w [] hget hauth hvalid hnodup (by simp)
  have hlen : sigs'.length = L.length := by
    have hl := congrArg List.length hkeys'
    simpa using hl
  refine ⟨hok, ?_, ?_, ?_⟩
  · unfold MultisigWallet.get_signature_count
    rw [hget']
    simp [hlen]
  · unfold MultisigWallet.has_enough_signatures
    rw [hget']
    simp only [hlen, hth']
  · intro p hp s' hm hs
    have hA : (runAdds w tx_id L).1.is_authorized p.2 = true := by
      rw [is_authorized_congr _ w p.2 hASK]
      exact hauth p hp
    have hC : mapContains sigs' (pubkeyHex p.2) = true := by
      rw [mapContains_iff, hkeys']
      simp only [List.map_nil, List.nil_append]
      exact List.mem_map.mpr ⟨p, hp, rfl⟩
    exact add_signature_duplicate _ tx_id s' p.2 _ hA hget' rfl hm hs hC

/-- C7 witness: one distinct authorized signer on `walletA1`: the count is 1,
`has_enough_signatures` is `threshold ≤ 1`, and resubmitting `pkA` is
rejected with `DuplicateSignature`, leaving the wallet unchanged. -/
theorem monotonic_signature_admission_witness :
    (runAdds walletA1 txA.id [(sigA, pkA)]).2 = true ∧
    (runAdds walletA1 txA.id [(sigA, pkA)]).1.get_signature_count txA.id = .ok 1 ∧
    (runAdds walletA1 txA.id [(sigA, pkA)]).1.has_enough_signatures txA.id =
      .ok (decide (walletA1.threshold ≤ 1)) ∧
    (runAdds walletA1 txA.id [(sigA, pkA)]).1.add_signature txA.id sigA pkA =
      ((runAdds walletA1 txA.id [(sigA, pkA)]).1, .error .DuplicateSignature) := by
  obtain ⟨h1, h2, h3, h4⟩ := monotonic_signature_admission walletA1 txA.id txA
    [(sigA, pkA)] rfl (by decide) (by decide) (by decide)
  exact ⟨h1, h2, h3, h4 (sigA, pkA) (by simp) sigA rfl rfl⟩
